import Mathlib

/-!
# Object difference classifier (`difference.go`)

A shallow embedding of `objectDifferenceFactory` and of the closure it returns.
The closure captures four variables (`ch`, `reachedEOF`, `ok`, `content`); they
are made explicit as a `Session` value that every call takes and returns.
The receive-only channel `ch` is the list of records that the lister has still
to deliver, followed by the close of the channel.
-/

namespace Difference

/-! ## Collaborating types -/

/-- The Go type `os.FileMode`: a bit set held in an unsigned 32-bit integer. -/
structure FileMode where
  bits : Nat
deriving DecidableEq, Repr

/-- The mask `os.ModeType` of the Go standard library:
`ModeDir | ModeSymlink | ModeNamedPipe | ModeSocket | ModeDevice | ModeCharDevice | ModeIrregular`. -/
def ModeType : Nat :=
  2 ^ 31 ||| 2 ^ 27 ||| 2 ^ 25 ||| 2 ^ 24 ||| 2 ^ 26 ||| 2 ^ 21 ||| 2 ^ 19

/-- The bit `os.ModeDir`. -/
def ModeDir : FileMode := ⟨2 ^ 31⟩

/-- The method `FileMode.IsRegular`: no type bit is set. -/
def FileMode.IsRegular (m : FileMode) : Bool :=
  m.bits &&& ModeType == 0

/-- The Go type `time.Time`, seen as an instant on the time line (nanoseconds). -/
structure Time where
  instant : Int
deriving DecidableEq, Repr

/-- The method `Time.After`: `t` is strictly later than `u`. -/
def Time.After (t u : Time) : Bool := decide (u.instant < t.instant)

/-- The method `Time.Before`: `t` is strictly earlier than `u`. -/
def Time.Before (t u : Time) : Bool := decide (t.instant < u.instant)

/-- The type `probe.Error`: a cause together with the call trace collected so far. -/
structure ProbeError where
  Cause : String
  CallTrace : List String
deriving DecidableEq, Repr

/-- The method `probe.Error.Trace`: records the calling function in the call
trace of the error and hands the error back. -/
def ProbeError.Trace (e : ProbeError) : ProbeError :=
  { e with CallTrace := e.CallTrace ++ ["objectDifferenceFactory"] }

/-- One record of the target listing, `clientContent`. `URL` holds the value of
`content.URL.String()`, `Typ` the field `Type` (a reserved word here) and `Err`
is `none` for the nil error. -/
structure clientContent where
  URL : String
  Time : Difference.Time
  Size : Int
  Typ : FileMode
  Err : Option ProbeError
deriving DecidableEq, Repr

/-! ## `differType` -/

/-- The enumeration `differType` (lines 34-41). -/
inductive differType where
  | differInNone
  | differInSize
  | differInTimeNewer
  | differInTimeOlder
  | differInFirst
  | differInType
deriving DecidableEq, Repr

open differType

/-- The `int16` value that `iota` gives each constant of `differType`. -/
def differType.toInt16 : differType → Int
  | differInNone => 0
  | differInSize => 1
  | differInTimeNewer => 2
  | differInTimeOlder => 3
  | differInFirst => 4
  | differInType => 5

/-! ## Session state and the closure -/

/-- The variables captured by the closure (lines 48-51). `ch` lists the records
not yet received from the channel; once it is empty the channel is closed. -/
structure Session where
  reachedEOF : Bool
  ok : Bool
  content : Option clientContent
  ch : List clientContent
deriving DecidableEq, Repr

/-- The pair `(differType, *probe.Error)` returned by a call. -/
structure Ret where
  diff : differType
  err : Option ProbeError
deriving DecidableEq, Repr

/-- The function `objectDifferenceFactory` (lines 45-52): the state of a fresh
closure over the listing of the target. -/
def objectDifferenceFactory (listing : List clientContent) : Session :=
  { reachedEOF := false, ok := false, content := none, ch := listing }

/-- The comparison made when `expected == current` (lines 65-86), against the
record `content` points to. -/
def compareContent (srcType : FileMode) (srcSize : Int) (srcTime : Time)
    (content : clientContent) : differType :=
  let tgtType := content.Typ
  let tgtSize := content.Size
  let tgtTime := content.Time
  if srcType.IsRegular && !tgtType.IsRegular then differInType
  else if srcType.IsRegular && tgtType.IsRegular then
    if srcSize ≠ tgtSize then differInSize
    else if srcTime.After tgtTime then differInTimeNewer
    else if srcTime.Before tgtTime then differInTimeOlder
    else differInNone
  else differInNone

/-- The `for` loop of the closure (lines 60-97). The first component of the
result is `none` when the call stops on a nil-pointer dereference (`content.Type`
read while `content` is nil); the second is the captured state at that point. -/
def objectDifferenceLoop (expected : String) (srcType : FileMode) (srcSize : Int)
    (srcTime : Time) (current : String) (content : Option clientContent) (ok : Bool) :
    List clientContent → Option Ret × Session
  | [] =>
    if expected < current then
      (some ⟨differInFirst, none⟩, ⟨false, ok, content, []⟩)
    else if expected = current then
      match content with
      | none => (none, ⟨false, ok, content, []⟩)
      | some c => (some ⟨compareContent srcType srcSize srcTime c, none⟩, ⟨false, ok, content, []⟩)
    else
      (some ⟨differInFirst, none⟩, ⟨true, false, none, []⟩)
  | next :: rest =>
    if expected < current then
      (some ⟨differInFirst, none⟩, ⟨false, ok, content, next :: rest⟩)
    else if expected = current then
      match content with
      | none => (none, ⟨false, ok, content, next :: rest⟩)
      | some c =>
        (some ⟨compareContent srcType srcSize srcTime c, none⟩, ⟨false, ok, content, next :: rest⟩)
    else
      match next.Err with
      | some e =>
        (some ⟨differInNone, some e.Trace⟩,
          ⟨false, true, some { next with Err := some e.Trace }, rest⟩)
      | none =>
        objectDifferenceLoop expected srcType srcSize srcTime next.URL (some next) true rest

/-- The closure returned by `objectDifferenceFactory` (lines 53-98), with the
captured state passed in and out. `urlJoinPath` is the helper of the same name. -/
def objectDifference (urlJoinPath : String → String → String) (s : Session)
    (targetURL srcSuffix : String) (srcType : FileMode) (srcSize : Int) (srcTime : Time) :
    Option Ret × Session :=
  if s.reachedEOF then
    (some ⟨differInFirst, none⟩, s)
  else
    objectDifferenceLoop (urlJoinPath targetURL srcSuffix) srcType srcSize srcTime
      targetURL s.content s.ok s.ch

/-- One call of the closure: the five arguments of `objectDifference`. -/
structure Query where
  targetURL : String
  srcSuffix : String
  srcType : FileMode
  srcSize : Int
  srcTime : Time
deriving DecidableEq, Repr

/-- The key a query asks for, `urlJoinPath(targetURL, srcSuffix)` (line 59). -/
def Query.expected (urlJoinPath : String → String → String) (q : Query) : String :=
  urlJoinPath q.targetURL q.srcSuffix

/-- The call `classify(session, ...)` of the specification: the closure applied
to the arguments held in `q`. -/
def classify (urlJoinPath : String → String → String) (s : Session) (q : Query) :
    Option Ret × Session :=
  objectDifference urlJoinPath s q.targetURL q.srcSuffix q.srcType q.srcSize q.srcTime

/-- A caller that makes the calls of `qs` one after the other on the same
closure; a call that stops on a nil dereference ends the run. -/
def runCalls (urlJoinPath : String → String → String) :
    Session → List Query → List (Option Ret) × Session
  | s, [] => ([], s)
  | s, q :: qs =>
    match classify urlJoinPath s q with
    | (none, s1) => ([none], s1)
    | (some r, s1) =>
      let rest := runCalls urlJoinPath s1 qs
      (some r :: rest.1, rest.2)

/-- Modelled from the spec: `urlJoinPath` is not part of `difference.go`; the
classifier "performs a simple concatenation it is given". -/
def concatJoin (targetURL srcSuffix : String) : String :=
  targetURL ++ srcSuffix

/-- The records received from the channel between the state `s` and the later
state `t`: the part of `s.ch` that is no longer in `t.ch`. -/
def fetched (s t : Session) : List clientContent :=
  s.ch.take (s.ch.length - t.ch.length)

/-- The pointer `content` is the received record `r`: either `r` as it was
received, or `r` with its error traced in place by the call that returned it. -/
def holdsRecord (content : Option clientContent) (r : clientContent) : Prop :=
  content = some r ∨ content = some { r with Err := r.Err.map ProbeError.Trace }

instance (content : Option clientContent) (r : clientContent) :
    Decidable (holdsRecord content r) := by
  unfold holdsRecord
  infer_instance

/-- The state `s` of a closure made over the listing `L`, seen against the
records received so far: as long as `reachedEOF` is false, `content` is nil
if nothing has been received and holds the last received record otherwise. -/
def currentInv (L : List clientContent) (s : Session) : Prop :=
  ∃ pre, L = pre ++ s.ch ∧
    (s.reachedEOF = false →
      (pre = [] ∧ s.content = none) ∨ ∃ init r, pre = init ++ [r] ∧ holdsRecord s.content r)

/-! ## Sample data of the end-to-end scenarios -/

/-- The modification time `T0` of the scenarios. -/
def T0 : Time := ⟨1000⟩

/-- The mode of a plain file, `0644`. -/
def regularMode : FileMode := ⟨420⟩

/-- The record `("a.txt", regular, 10, T0)`. -/
def recA : clientContent :=
  { URL := "a.txt", Time := T0, Size := 10, Typ := regularMode, Err := none }

/-- The record `("dir/", non-regular, 0, T0)`. -/
def recDir : clientContent :=
  { URL := "dir/", Time := T0, Size := 0, Typ := ModeDir, Err := none }

/-- A listing failure as the lister reports it. -/
def listErr : ProbeError := { Cause := "list failed", CallTrace := [] }

/-- A record that carries a fetch error. -/
def recErr : clientContent :=
  { URL := "", Time := ⟨0⟩, Size := 0, Typ := ⟨0⟩, Err := some listErr }

/-- The captured state once `a.txt` has been matched on the stream
`[recA, recErr]`: `recA` is held, the error record is still to come. -/
def afterA : Session :=
  { reachedEOF := false, ok := true, content := some recA, ch := [recErr] }

/-- The query for `z.txt` made under the empty root key. -/
def queryZ : Query :=
  { targetURL := "", srcSuffix := "z.txt", srcType := regularMode, srcSize := 10, srcTime := T0 }

/-- A plain file of size 10 under the key `key`. -/
def fileAt (key : String) : clientContent :=
  { URL := key, Time := T0, Size := 10, Typ := regularMode, Err := none }

/-- The query for a plain file of size 10 with the given suffix under the root `t/`. -/
def queryAt (suffix : String) : Query :=
  { targetURL := "t/", srcSuffix := suffix, srcType := regularMode, srcSize := 10, srcTime := T0 }

/-! ## Unfolding the loop -/

section LoopLemmas

variable (expected : String) (srcType : FileMode) (srcSize : Int) (srcTime : Time)

theorem loop_of_lt {current : String} (content : Option clientContent) (ok : Bool)
    (ch : List clientContent) (h : expected < current) :
    objectDifferenceLoop expected srcType srcSize srcTime current content ok ch
      = (some ⟨differInFirst, none⟩, ⟨false, ok, content, ch⟩) := by
  cases ch <;> simp [objectDifferenceLoop, h]

theorem loop_of_eq_some {current : String} (c : clientContent) (ok : Bool)
    (ch : List clientContent) (h : expected = current) :
    objectDifferenceLoop expected srcType srcSize srcTime current (some c) ok ch
      = (some ⟨compareContent srcType srcSize srcTime c, none⟩, ⟨false, ok, some c, ch⟩) := by
  subst h
  cases ch <;> simp [objectDifferenceLoop]

theorem loop_of_eq_none {current : String} (ok : Bool)
    (ch : List clientContent) (h : expected = current) :
    objectDifferenceLoop expected srcType srcSize srcTime current none ok ch
      = (none, ⟨false, ok, none, ch⟩) := by
  subst h
  cases ch <;> simp [objectDifferenceLoop]

theorem loop_nil_of_gt {current : String} (content : Option clientContent) (ok : Bool)
    (h : current < expected) :
    objectDifferenceLoop expected srcType srcSize srcTime current content ok []
      = (some ⟨differInFirst, none⟩, ⟨true, false, none, []⟩) := by
  simp [objectDifferenceLoop, not_lt_of_gt h, ne_of_gt h]

theorem loop_cons_err_of_gt {current : String} (content : Option clientContent) (ok : Bool)
    (next : clientContent) (rest : List clientContent) (e : ProbeError)
    (h : current < expected) (he : next.Err = some e) :
    objectDifferenceLoop expected srcType srcSize srcTime current content ok (next :: rest)
      = (some ⟨differInNone, some e.Trace⟩,
          ⟨false, true, some { next with Err := some e.Trace }, rest⟩) := by
  simp [objectDifferenceLoop, not_lt_of_gt h, ne_of_gt h, he]

theorem loop_cons_ok_of_gt {current : String} (content : Option clientContent) (ok : Bool)
    (next : clientContent) (rest : List clientContent)
    (h : current < expected) (he : next.Err = none) :
    objectDifferenceLoop expected srcType srcSize srcTime current content ok (next :: rest)
      = objectDifferenceLoop expected srcType srcSize srcTime next.URL (some next) true rest := by
  simp [objectDifferenceLoop, not_lt_of_gt h, ne_of_gt h, he]

/-- Records that are free of error and lie before the expected key are fetched
and passed over one by one. -/
theorem loop_skip {current : String} (content : Option clientContent) (ok : Bool)
    (pre : List clientContent) (next : clientContent) (post : List clientContent)
    (h : current < expected)
    (hpre : ∀ p ∈ pre, p.Err = none ∧ p.URL < expected) (he : next.Err = none) :
    objectDifferenceLoop expected srcType srcSize srcTime current content ok (pre ++ next :: post)
      = objectDifferenceLoop expected srcType srcSize srcTime next.URL (some next) true post := by
  induction pre generalizing current content ok with
  | nil => simpa using loop_cons_ok_of_gt expected srcType srcSize srcTime content ok next post h he
  | cons p pre ih =>
    have hp := hpre p (List.mem_cons_self p pre)
    rw [List.cons_append, loop_cons_ok_of_gt expected srcType srcSize srcTime content ok p _ h hp.1]
    exact ih (some p) true hp.2 (fun q hq => hpre q (List.mem_cons_of_mem p hq))

end LoopLemmas

/-! ## What a call receives from the channel -/

/-- The two ways a run of the loop relates to the records it receives: either
every received record is free of error and no error is returned, or the last
received record carries an error, which is returned traced and stored in
`content`, `reachedEOF` staying false. -/
theorem loop_fetch_cases (expected : String) (srcType : FileMode) (srcSize : Int)
    (srcTime : Time) (current : String) (content : Option clientContent) (ok : Bool)
    (ch : List clientContent) :
    ∃ pre, ch = pre ++ (objectDifferenceLoop expected srcType srcSize srcTime current content ok ch).2.ch ∧
      (((∀ p ∈ pre, p.Err = none) ∧
          ∀ r, (objectDifferenceLoop expected srcType srcSize srcTime current content ok ch).1 = some r
            → r.err = none) ∨
        ∃ init c e0, pre = init ++ [c] ∧ (∀ p ∈ init, p.Err = none) ∧ c.Err = some e0 ∧
          (objectDifferenceLoop expected srcType srcSize srcTime current content ok ch).1
            = some ⟨differInNone, some e0.Trace⟩ ∧
          (objectDifferenceLoop expected srcType srcSize srcTime current content ok ch).2.reachedEOF
            = false ∧
          (objectDifferenceLoop expected srcType srcSize srcTime current content ok ch).2.content
            = some { c with Err := some e0.Trace }) := by
  induction ch generalizing current content ok with
  | nil =>
    rcases lt_trichotomy expected current with h | h | h
    · rw [loop_of_lt _ _ _ _ content ok [] h]
      exact ⟨[], by simp, Or.inl ⟨by simp, by simp⟩⟩
    · cases content with
      | none =>
        rw [loop_of_eq_none _ _ _ _ ok [] h]
        exact ⟨[], by simp, Or.inl ⟨by simp, by simp⟩⟩
      | some c =>
        rw [loop_of_eq_some _ _ _ _ c ok [] h]
        exact ⟨[], by simp, Or.inl ⟨by simp, by simp⟩⟩
    · rw [loop_nil_of_gt _ _ _ _ content ok h]
      exact ⟨[], by simp, Or.inl ⟨by simp, by simp⟩⟩
  | cons next rest ih =>
    rcases lt_trichotomy expected current with h | h | h
    · rw [loop_of_lt _ _ _ _ content ok (next :: rest) h]
      exact ⟨[], by simp, Or.inl ⟨by simp, by simp⟩⟩
    · cases content with
      | none =>
        rw [loop_of_eq_none _ _ _ _ ok (next :: rest) h]
        exact ⟨[], by simp, Or.inl ⟨by simp, by simp⟩⟩
      | some c =>
        rw [loop_of_eq_some _ _ _ _ c ok (next :: rest) h]
        exact ⟨[], by simp, Or.inl ⟨by simp, by simp⟩⟩
    · cases hE : next.Err with
      | some e =>
        rw [loop_cons_err_of_gt _ _ _ _ content ok next rest e h hE]
        exact ⟨[next], by simp, Or.inr ⟨[], next, e, by simp, by simp, hE, rfl, rfl, rfl⟩⟩
      | none =>
        rw [loop_cons_ok_of_gt _ _ _ _ content ok next rest h hE]
        obtain ⟨pre, hpre, hcases⟩ := ih next.URL (some next) true
        refine ⟨next :: pre, by rw [List.cons_append, ← hpre], ?_⟩
        rcases hcases with ⟨hok, hret⟩ | ⟨init, c, e0, hinit, hclean, hc, hret, heof, hcont⟩
        · refine Or.inl ⟨?_, hret⟩
          intro p hp
          rcases List.mem_cons.mp hp with rfl | hp
          · exact hE
          · exact hok p hp
        · refine Or.inr ⟨next :: init, c, e0, by rw [hinit, List.cons_append], ?_, hc, hret,
            heof, hcont⟩
          intro p hp
          rcases List.mem_cons.mp hp with rfl | hp
          · exact hE
          · exact hclean p hp

/-- The statement of `loop_fetch_cases` for a whole call, with the received
records written as `fetched`. -/
theorem classify_fetch_cases (urlJoinPath : String → String → String) (s : Session)
    (q : Query) :
    s.ch = fetched s (classify urlJoinPath s q).2 ++ (classify urlJoinPath s q).2.ch ∧
      (((∀ p ∈ fetched s (classify urlJoinPath s q).2, p.Err = none) ∧
          ∀ r, (classify urlJoinPath s q).1 = some r → r.err = none) ∨
        ∃ init c e0, fetched s (classify urlJoinPath s q).2 = init ++ [c] ∧
          (∀ p ∈ init, p.Err = none) ∧ c.Err = some e0 ∧
          (classify urlJoinPath s q).1 = some ⟨differInNone, some e0.Trace⟩ ∧
          (classify urlJoinPath s q).2.reachedEOF = false ∧
          (classify urlJoinPath s q).2.content = some { c with Err := some e0.Trace }) := by
  have key : ∃ pre, s.ch = pre ++ (classify urlJoinPath s q).2.ch ∧
      (((∀ p ∈ pre, p.Err = none) ∧
          ∀ r, (classify urlJoinPath s q).1 = some r → r.err = none) ∨
        ∃ init c e0, pre = init ++ [c] ∧
          (∀ p ∈ init, p.Err = none) ∧ c.Err = some e0 ∧
          (classify urlJoinPath s q).1 = some ⟨differInNone, some e0.Trace⟩ ∧
          (classify urlJoinPath s q).2.reachedEOF = false ∧
          (classify urlJoinPath s q).2.content = some { c with Err := some e0.Trace }) := by
    unfold classify objectDifference
    cases hEOF : s.reachedEOF with
    | true => exact ⟨[], by simp, Or.inl ⟨by simp, by simp⟩⟩
    | false =>
      simp only [Bool.false_eq_true, if_false]
      exact loop_fetch_cases _ _ _ _ _ _ _ _
  obtain ⟨pre, hpre, hcases⟩ := key
  have hf : fetched s (classify urlJoinPath s q).2 = pre := by
    unfold fetched
    conv_lhs => rw [hpre]
    simp
  rw [hf]
  exact ⟨hpre, hcases⟩

/-! ## A query that meets a record of its own key -/

/-- A call on a session that is not exhausted, for a key behind the root key,
passes over the records before the key and is decided by `compareContent` on
the first record `c` that carries the key. -/
theorem classify_compares (urlJoinPath : String → String → String) (s : Session) (q : Query)
    (pre : List clientContent) (c : clientContent) (post : List clientContent)
    (hEOF : s.reachedEOF = false)
    (hroot : q.targetURL < q.expected urlJoinPath)
    (hch : s.ch = pre ++ c :: post)
    (hpre : ∀ p ∈ pre, p.Err = none ∧ p.URL < q.expected urlJoinPath)
    (hErr : c.Err = none) (hkey : c.URL = q.expected urlJoinPath) :
    classify urlJoinPath s q
      = (some ⟨compareContent q.srcType q.srcSize q.srcTime c, none⟩,
          ⟨false, true, some c, post⟩) := by
  unfold classify objectDifference
  unfold Query.expected at hroot hpre hkey
  rw [if_neg (by simp [hEOF]), hch,
    loop_skip _ _ _ _ s.content s.ok pre c post hroot hpre hErr,
    loop_of_eq_some _ _ _ _ c true post hkey.symm]

theorem compareContent_regular (srcType : FileMode) (srcSize : Int) (srcTime : Time)
    (c : clientContent) (hsrc : srcType.IsRegular = true) (htgt : c.Typ.IsRegular = true) :
    compareContent srcType srcSize srcTime c =
      if srcSize ≠ c.Size then differInSize
      else if srcTime.After c.Time then differInTimeNewer
      else if srcTime.Before c.Time then differInTimeOlder
      else differInNone := by
  simp [compareContent, hsrc, htgt]

theorem time_not_after_not_before (t u : Time) :
    (t.After u = false ∧ t.Before u = false) ↔ t = u := by
  cases t with
  | mk a =>
    cases u with
    | mk b =>
      simp only [Time.After, Time.Before, decide_eq_false_iff_not, not_lt, Time.mk.injEq]
      constructor
      · rintro ⟨h1, h2⟩
        exact le_antisymm h1 h2
      · intro h
        subst h
        exact ⟨le_refl _, le_refl _⟩

theorem regularMode_isRegular : regularMode.IsRegular = true := by
  decide

theorem modeDir_not_isRegular : ModeDir.IsRegular = false := by
  decide

theorem empty_lt_a_txt : "" < concatJoin "" "a.txt" := by
  rw [String.lt_iff_toList_lt]; decide

theorem empty_lt_dir : "" < concatJoin "" "dir/" := by
  rw [String.lt_iff_toList_lt]; decide

/-! ## Keys that are, or are not, on the target -/

/-- C1 fails on the stream `[t/a, t/c]` (strictly increasing, free of error)
with the queries `b` then `c` (keys in non-decreasing order) on a fresh closure:
the call for `b` receives `t/a` and `t/c` and answers `differInFirst`; the call
for `c` starts again from the root key, receives the close of the channel and
answers `differInFirst` too, although `t/c` is a record of the target stream. -/
theorem record_lost_after_skipped_query :
    (fileAt "t/a").URL < (fileAt "t/c").URL ∧
    (queryAt "b").expected concatJoin ≤ (queryAt "c").expected concatJoin ∧
    fileAt "t/c" ∈ [fileAt "t/a", fileAt "t/c"] ∧
    (fileAt "t/c").URL = (queryAt "c").expected concatJoin ∧
    classify concatJoin (objectDifferenceFactory [fileAt "t/a", fileAt "t/c"]) (queryAt "b")
      = (some ⟨differInFirst, none⟩, ⟨false, true, some (fileAt "t/c"), []⟩) ∧
    classify concatJoin ⟨false, true, some (fileAt "t/c"), []⟩ (queryAt "c")
      = (some ⟨differInFirst, none⟩, ⟨true, false, none, []⟩) ∧
    (runCalls concatJoin (objectDifferenceFactory [fileAt "t/a", fileAt "t/c"])
        [queryAt "b", queryAt "c"]).1
      = [some ⟨differInFirst, none⟩, some ⟨differInFirst, none⟩] := by
  have hab : "t/a" < "t/b" := by rw [String.lt_iff_toList_lt]; decide
  have hbc : "t/b" < "t/c" := by rw [String.lt_iff_toList_lt]; decide
  have hac : "t/a" < "t/c" := by rw [String.lt_iff_toList_lt]; decide
  have hrb : "t/" < "t/b" := by rw [String.lt_iff_toList_lt]; decide
  have hrc : "t/" < "t/c" := by rw [String.lt_iff_toList_lt]; decide
  have h1 : classify concatJoin (objectDifferenceFactory [fileAt "t/a", fileAt "t/c"])
      (queryAt "b") = (some ⟨differInFirst, none⟩, ⟨false, true, some (fileAt "t/c"), []⟩) := by
    unfold classify objectDifference
    rw [if_neg (by decide)]
    show objectDifferenceLoop "t/b" _ _ _ "t/" none false [fileAt "t/a", fileAt "t/c"] = _
    rw [loop_cons_ok_of_gt _ _ _ _ _ _ _ _ hrb rfl]
    show objectDifferenceLoop "t/b" _ _ _ "t/a" _ true [fileAt "t/c"] = _
    rw [loop_cons_ok_of_gt _ _ _ _ _ _ _ _ hab rfl]
    exact loop_of_lt _ _ _ _ _ _ _ hbc
  have h2 : classify concatJoin ⟨false, true, some (fileAt "t/c"), []⟩ (queryAt "c")
      = (some ⟨differInFirst, none⟩, ⟨true, false, none, []⟩) := by
    unfold classify objectDifference
    rw [if_neg (by decide)]
    exact loop_nil_of_gt _ _ _ _ _ _ hrc
  refine ⟨hac, le_of_lt hbc, by simp, rfl, h1, h2, ?_⟩
  simp [runCalls, h1, h2]

/-- C2 fails for the root key: after `a` has been matched on the stream `[t/a]`,
the query with the empty suffix asks for the key `t/`, which no record of the
stream carries; the call reads the record of `t/a` still held in `content` and
answers `differInNone`. On a fresh closure the same query reads the nil
`content` and the call stops on the dereference. -/
theorem root_key_read_from_stale_content :
    classify concatJoin (objectDifferenceFactory [fileAt "t/a"]) (queryAt "a")
      = (some ⟨differInNone, none⟩, ⟨false, true, some (fileAt "t/a"), []⟩) ∧
    (∀ c ∈ [fileAt "t/a"], c.Err = none ∧ c.URL ≠ (queryAt "").expected concatJoin) ∧
    classify concatJoin ⟨false, true, some (fileAt "t/a"), []⟩ (queryAt "")
      = (some ⟨differInNone, none⟩, ⟨false, true, some (fileAt "t/a"), []⟩) ∧
    classify concatJoin (objectDifferenceFactory []) (queryAt "")
      = (none, objectDifferenceFactory []) := by
  have hra : "t/" < "t/a" := by rw [String.lt_iff_toList_lt]; decide
  refine ⟨?_, ?_, ?_, ?_⟩
  · unfold classify objectDifference
    rw [if_neg (by decide)]
    show objectDifferenceLoop "t/a" _ _ _ "t/" none false [fileAt "t/a"] = _
    rw [loop_cons_ok_of_gt _ _ _ _ _ _ _ _ hra rfl]
    show objectDifferenceLoop "t/a" _ _ _ "t/a" _ true [] = _
    rw [loop_of_eq_some _ _ _ _ _ _ _ rfl]
    rfl
  · intro c hc
    rw [List.mem_singleton] at hc
    subst hc
    exact ⟨rfl, by decide⟩
  · unfold classify objectDifference
    rw [if_neg (by decide)]
    show objectDifferenceLoop "t/" _ _ _ "t/" _ true [] = _
    rw [loop_of_eq_some _ _ _ _ _ _ _ rfl]
    rfl
  · unfold classify objectDifference
    rw [if_neg (by decide)]
    exact loop_of_eq_none _ _ _ _ _ _ rfl

/-- Away from the root key the statement of C2 holds: on a stream free of error
in which no record carries the expected key, a call for a key other than the
root key returns `differInFirst` and no error. -/
theorem absent_key_gives_first_off_root (urlJoinPath : String → String → String)
    (s : Session) (q : Query)
    (hroot : q.expected urlJoinPath ≠ q.targetURL)
    (hch : ∀ c ∈ s.ch, c.Err = none ∧ c.URL ≠ q.expected urlJoinPath) :
    (classify urlJoinPath s q).1 = some ⟨differInFirst, none⟩ := by
  unfold classify objectDifference
  unfold Query.expected at hroot hch
  cases hEOF : s.reachedEOF with
  | true => simp
  | false =>
    simp only [Bool.false_eq_true, if_false]
    generalize s.content = content
    generalize s.ok = ok
    generalize urlJoinPath q.targetURL q.srcSuffix = expected at hroot hch ⊢
    generalize q.targetURL = current at hroot ⊢
    generalize s.ch = ch at hch
    induction ch generalizing current content ok with
    | nil =>
      rcases lt_or_gt_of_ne hroot with h | h
      · rw [loop_of_lt _ _ _ _ _ _ _ h]
      · rw [loop_nil_of_gt _ _ _ _ _ _ h]
    | cons next rest ih =>
      rcases lt_or_gt_of_ne hroot with h | h
      · rw [loop_of_lt _ _ _ _ _ _ _ h]
      · have hn := hch next (List.mem_cons_self next rest)
        rw [loop_cons_ok_of_gt _ _ _ _ _ _ _ _ h hn.1]
        exact ih (some next) true next.URL (Ne.symm hn.2)
          (fun c hc => hch c (List.mem_cons_of_mem next hc))

/-! ## Classification at matching keys -/

/-- C3: when the query meets a target record of equal key (the first record of
the remaining stream whose key is not smaller than the expected key, the earlier
ones being error-free) and source and target are both regular with equal size
and equal modification time, the call returns `differInNone` and no error. -/
theorem identical_regular_gives_none (urlJoinPath : String → String → String) (s : Session)
    (q : Query) (pre : List clientContent) (c : clientContent) (post : List clientContent)
    (hEOF : s.reachedEOF = false)
    (hroot : q.targetURL < q.expected urlJoinPath)
    (hch : s.ch = pre ++ c :: post)
    (hpre : ∀ p ∈ pre, p.Err = none ∧ p.URL < q.expected urlJoinPath)
    (hErr : c.Err = none) (hkey : c.URL = q.expected urlJoinPath)
    (hsrc : q.srcType.IsRegular = true) (htgt : c.Typ.IsRegular = true)
    (hsize : q.srcSize = c.Size) (htime : q.srcTime = c.Time) :
    classify urlJoinPath s q = (some ⟨differInNone, none⟩, ⟨false, true, some c, post⟩) := by
  rw [classify_compares urlJoinPath s q pre c post hEOF hroot hch hpre hErr hkey,
    compareContent_regular _ _ _ _ hsrc htgt]
  simp [hsize, htime, Time.After, Time.Before]

/-- Scenario 1: stream `[("a.txt", regular, 10, T0)]`, query `a.txt`, regular,
size 10, time `T0`. -/
theorem identical_regular_gives_none_witness :
    classify concatJoin (objectDifferenceFactory [recA]) ⟨"", "a.txt", regularMode, 10, T0⟩
      = (some ⟨differInNone, none⟩, ⟨false, true, some recA, []⟩) :=
  identical_regular_gives_none concatJoin (objectDifferenceFactory [recA])
    ⟨"", "a.txt", regularMode, 10, T0⟩ [] recA [] rfl empty_lt_a_txt rfl
    (by simp) rfl (by decide) regularMode_isRegular regularMode_isRegular rfl rfl

/-- C4: when the query meets a target record of equal key, both regular, and the
sizes differ, the call returns `differInSize` and no error, whatever the two
modification times are. -/
theorem size_mismatch_before_time (urlJoinPath : String → String → String) (s : Session)
    (q : Query) (pre : List clientContent) (c : clientContent) (post : List clientContent)
    (hEOF : s.reachedEOF = false)
    (hroot : q.targetURL < q.expected urlJoinPath)
    (hch : s.ch = pre ++ c :: post)
    (hpre : ∀ p ∈ pre, p.Err = none ∧ p.URL < q.expected urlJoinPath)
    (hErr : c.Err = none) (hkey : c.URL = q.expected urlJoinPath)
    (hsrc : q.srcType.IsRegular = true) (htgt : c.Typ.IsRegular = true)
    (hsize : q.srcSize ≠ c.Size) :
    classify urlJoinPath s q = (some ⟨differInSize, none⟩, ⟨false, true, some c, post⟩) := by
  rw [classify_compares urlJoinPath s q pre c post hEOF hroot hch hpre hErr hkey,
    compareContent_regular _ _ _ _ hsrc htgt]
  simp [hsize]

/-- Scenario 2: stream `[("a.txt", regular, 10, T0)]`, query `a.txt`, regular,
size 20, time `T0`. -/
theorem size_mismatch_before_time_witness :
    classify concatJoin (objectDifferenceFactory [recA]) ⟨"", "a.txt", regularMode, 20, T0⟩
      = (some ⟨differInSize, none⟩, ⟨false, true, some recA, []⟩) :=
  size_mismatch_before_time concatJoin (objectDifferenceFactory [recA])
    ⟨"", "a.txt", regularMode, 20, T0⟩ [] recA [] rfl empty_lt_a_txt rfl
    (by simp) rfl (by decide) regularMode_isRegular regularMode_isRegular (by decide)

/-- C5: when the query meets a target record of equal key, both regular and of
equal size, the call returns `differInTimeNewer` if the source time is strictly
after the target time and `differInTimeOlder` if it is strictly before; the
result is `differInNone` exactly when the two times are equal. -/
theorem time_comparison_at_equal_size (urlJoinPath : String → String → String) (s : Session)
    (q : Query) (pre : List clientContent) (c : clientContent) (post : List clientContent)
    (hEOF : s.reachedEOF = false)
    (hroot : q.targetURL < q.expected urlJoinPath)
    (hch : s.ch = pre ++ c :: post)
    (hpre : ∀ p ∈ pre, p.Err = none ∧ p.URL < q.expected urlJoinPath)
    (hErr : c.Err = none) (hkey : c.URL = q.expected urlJoinPath)
    (hsrc : q.srcType.IsRegular = true) (htgt : c.Typ.IsRegular = true)
    (hsize : q.srcSize = c.Size) :
    (c.Time.instant < q.srcTime.instant →
      classify urlJoinPath s q
        = (some ⟨differInTimeNewer, none⟩, ⟨false, true, some c, post⟩)) ∧
    (q.srcTime.instant < c.Time.instant →
      classify urlJoinPath s q
        = (some ⟨differInTimeOlder, none⟩, ⟨false, true, some c, post⟩)) ∧
    ((classify urlJoinPath s q).1 = some ⟨differInNone, none⟩ ↔ q.srcTime = c.Time) := by
  rw [classify_compares urlJoinPath s q pre c post hEOF hroot hch hpre hErr hkey,
    compareContent_regular _ _ _ _ hsrc htgt]
  refine ⟨?_, ?_, ?_⟩
  · intro h
    simp [hsize, Time.After, h]
  · intro h
    simp [hsize, Time.After, Time.Before, h, not_lt_of_gt h]
  · rw [← time_not_after_not_before]
    cases hA : q.srcTime.After c.Time <;> cases hB : q.srcTime.Before c.Time <;> simp [hsize]

/-- A source newer than `a.txt` on the target, of the same size: the three parts
of C5 at stream `[("a.txt", regular, 10, T0)]` and source time `T0 + 1`. -/
theorem time_comparison_at_equal_size_witness :
    (T0.instant < (1001 : Int) →
      classify concatJoin (objectDifferenceFactory [recA]) ⟨"", "a.txt", regularMode, 10, ⟨1001⟩⟩
        = (some ⟨differInTimeNewer, none⟩, ⟨false, true, some recA, []⟩)) ∧
    ((1001 : Int) < T0.instant →
      classify concatJoin (objectDifferenceFactory [recA]) ⟨"", "a.txt", regularMode, 10, ⟨1001⟩⟩
        = (some ⟨differInTimeOlder, none⟩, ⟨false, true, some recA, []⟩)) ∧
    ((classify concatJoin (objectDifferenceFactory [recA])
        ⟨"", "a.txt", regularMode, 10, ⟨1001⟩⟩).1 = some ⟨differInNone, none⟩
      ↔ (⟨1001⟩ : Time) = T0) :=
  time_comparison_at_equal_size concatJoin (objectDifferenceFactory [recA])
    ⟨"", "a.txt", regularMode, 10, ⟨1001⟩⟩ [] recA [] rfl empty_lt_a_txt rfl
    (by simp) rfl (by decide) regularMode_isRegular regularMode_isRegular rfl

/-- C6: when a regular source query meets a non-regular target record of equal
key, the call returns `differInType` and no error, whatever the sizes and the
modification times are. -/
theorem type_mismatch (urlJoinPath : String → String → String) (s : Session)
    (q : Query) (pre : List clientContent) (c : clientContent) (post : List clientContent)
    (hEOF : s.reachedEOF = false)
    (hroot : q.targetURL < q.expected urlJoinPath)
    (hch : s.ch = pre ++ c :: post)
    (hpre : ∀ p ∈ pre, p.Err = none ∧ p.URL < q.expected urlJoinPath)
    (hErr : c.Err = none) (hkey : c.URL = q.expected urlJoinPath)
    (hsrc : q.srcType.IsRegular = true) (htgt : c.Typ.IsRegular = false) :
    classify urlJoinPath s q = (some ⟨differInType, none⟩, ⟨false, true, some c, post⟩) := by
  rw [classify_compares urlJoinPath s q pre c post hEOF hroot hch hpre hErr hkey]
  simp [compareContent, hsrc, htgt]

/-- Scenario 4: stream `[("dir/", non-regular, 0, T0)]`, query `dir/`, regular,
size 0, time `T0`. -/
theorem type_mismatch_witness :
    classify concatJoin (objectDifferenceFactory [recDir]) ⟨"", "dir/", regularMode, 0, T0⟩
      = (some ⟨differInType, none⟩, ⟨false, true, some recDir, []⟩) :=
  type_mismatch concatJoin (objectDifferenceFactory [recDir])
    ⟨"", "dir/", regularMode, 0, T0⟩ [] recDir [] rfl empty_lt_dir rfl
    (by simp) rfl (by decide) regularMode_isRegular modeDir_not_isRegular

/-- C7: when a non-regular source query meets a target record of equal key, the
call returns `differInNone` and no error; a second run that differs only in the
type, size and time of that target record and in the size and time of the source
returns the same result. -/
theorem nonregular_source_matches_anything (urlJoinPath : String → String → String)
    (s : Session) (q q2 : Query) (pre : List clientContent) (c c2 : clientContent)
    (post : List clientContent)
    (hEOF : s.reachedEOF = false)
    (hroot : q.targetURL < q.expected urlJoinPath)
    (hch : s.ch = pre ++ c :: post)
    (hpre : ∀ p ∈ pre, p.Err = none ∧ p.URL < q.expected urlJoinPath)
    (hErr : c.Err = none) (hkey : c.URL = q.expected urlJoinPath)
    (hsrc : q.srcType.IsRegular = false)
    (hq2 : q2.targetURL = q.targetURL ∧ q2.srcSuffix = q.srcSuffix ∧ q2.srcType = q.srcType)
    (hc2 : c2.URL = c.URL ∧ c2.Err = c.Err) :
    classify urlJoinPath s q = (some ⟨differInNone, none⟩, ⟨false, true, some c, post⟩) ∧
    (classify urlJoinPath { s with ch := pre ++ c2 :: post } q2).1
      = (classify urlJoinPath s q).1 := by
  have hexp : q2.expected urlJoinPath = q.expected urlJoinPath := by
    simp [Query.expected, hq2.1, hq2.2.1]
  have h1 := classify_compares urlJoinPath s q pre c post hEOF hroot hch hpre hErr hkey
  have h2 := classify_compares urlJoinPath { s with ch := pre ++ c2 :: post } q2 pre c2 post
    hEOF (by rw [hexp, hq2.1]; exact hroot) rfl (by rw [hexp]; exact hpre)
    (by rw [hc2.2]; exact hErr) (by rw [hc2.1, hexp]; exact hkey)
  have hsrc2 : q2.srcType.IsRegular = false := by rw [hq2.2.2]; exact hsrc
  rw [h1, h2]
  simp [compareContent, hsrc, hsrc2]

/-- A directory on the source against `("dir/", non-regular, 0, T0)` and against
a plain file of size 7 under the same key, with different source sizes and times. -/
theorem nonregular_source_matches_anything_witness :
    classify concatJoin (objectDifferenceFactory [recDir]) ⟨"", "dir/", ModeDir, 0, T0⟩
      = (some ⟨differInNone, none⟩, ⟨false, true, some recDir, []⟩) ∧
    (classify concatJoin
        { objectDifferenceFactory [recDir] with
          ch := [] ++ ({ recDir with Typ := regularMode, Size := 7, Time := ⟨5⟩ } : clientContent)
            :: [] }
        ⟨"", "dir/", ModeDir, 99, ⟨2000⟩⟩).1
      = (classify concatJoin (objectDifferenceFactory [recDir]) ⟨"", "dir/", ModeDir, 0, T0⟩).1 :=
  nonregular_source_matches_anything concatJoin (objectDifferenceFactory [recDir])
    ⟨"", "dir/", ModeDir, 0, T0⟩ ⟨"", "dir/", ModeDir, 99, ⟨2000⟩⟩ [] recDir
    { recDir with Typ := regularMode, Size := 7, Time := ⟨5⟩ } [] rfl empty_lt_dir rfl
    (by simp) rfl (by decide) modeDir_not_isRegular ⟨rfl, rfl, rfl⟩ ⟨rfl, rfl⟩

/-! ## Exhausted sessions -/

theorem exhausted_latch_answer (urlJoinPath : String → String → String)
    (s : Session) (q : Query) (h : s.reachedEOF = true) :
    classify urlJoinPath s q = (some ⟨differInFirst, none⟩, s) := by
  simp [classify, objectDifference, h]


/-- C8: on a session whose `reachedEOF` is true, every call returns
`differInFirst` and no error, receives nothing from the target stream and leaves
the captured state unchanged. -/
theorem exhausted_answers_without_touching (urlJoinPath : String → String → String)
    (s : Session) (q : Query) (h : s.reachedEOF = true) :
    classify urlJoinPath s q = (some ⟨differInFirst, none⟩, s) ∧
    fetched s (classify urlJoinPath s q).2 = [] ∧
    (classify urlJoinPath s q).2.ch = s.ch := by
  rw [exhausted_latch_answer urlJoinPath s q h]
  simp [fetched]

/-- Scenario 3, second query: after `b.txt` has exhausted the stream
`[("a.txt", regular, 10, T0)]`, the query `c.txt` is answered from the latch. -/
theorem exhausted_answers_without_touching_witness :
    (classify concatJoin (objectDifferenceFactory [recA]) ⟨"", "b.txt", regularMode, 10, T0⟩).2
      = ⟨true, false, none, []⟩ ∧
    classify concatJoin ⟨true, false, none, []⟩ ⟨"", "c.txt", regularMode, 10, T0⟩
      = (some ⟨differInFirst, none⟩, ⟨true, false, none, []⟩) ∧
    fetched ⟨true, false, none, []⟩
      (classify concatJoin ⟨true, false, none, []⟩ ⟨"", "c.txt", regularMode, 10, T0⟩).2 = [] ∧
    (classify concatJoin ⟨true, false, none, []⟩ ⟨"", "c.txt", regularMode, 10, T0⟩).2.ch = [] :=
  ⟨by
    simp [classify, objectDifference, objectDifferenceFactory, objectDifferenceLoop,
      concatJoin, recA]
    decide,
   exhausted_answers_without_touching concatJoin ⟨true, false, none, []⟩
    ⟨"", "c.txt", regularMode, 10, T0⟩ rfl⟩

/-! ## Errors -/

theorem empty_lt_z_txt : "" < concatJoin "" "z.txt" := by
  rw [String.lt_iff_toList_lt]; decide

/-- The second call of scenario 5, evaluated. -/
theorem classify_afterA_queryZ :
    classify concatJoin afterA queryZ
      = (some ⟨differInNone, some listErr.Trace⟩,
          ⟨false, true, some { recErr with Err := some listErr.Trace }, []⟩) := by
  unfold classify objectDifference
  rw [if_neg (by decide)]
  exact loop_cons_err_of_gt _ _ _ _ _ _ recErr [] listErr empty_lt_z_txt rfl

/-- C9: a call returns an error exactly when a record received from the target
stream during the call carries an error; the error returned is the one of that
record (the last one received, with the trace of this call added), it is the one
now stored with the record, and `reachedEOF` is false after the call. -/
theorem errors_exactly_fetch_errors (urlJoinPath : String → String → String) (s : Session)
    (q : Query) :
    ((∃ d e, (classify urlJoinPath s q).1 = some ⟨d, some e⟩)
      ↔ ∃ c ∈ fetched s (classify urlJoinPath s q).2, c.Err ≠ none) ∧
    (∀ d e, (classify urlJoinPath s q).1 = some ⟨d, some e⟩ →
      (classify urlJoinPath s q).2.reachedEOF = false ∧
      ∃ c e0, (fetched s (classify urlJoinPath s q).2).getLast? = some c ∧
        c.Err = some e0 ∧ e = e0.Trace ∧ e.Cause = e0.Cause ∧
        (classify urlJoinPath s q).2.content = some { c with Err := some e }) := by
  obtain ⟨_, hcases⟩ := classify_fetch_cases urlJoinPath s q
  rcases hcases with ⟨hok, hret⟩ | ⟨init, c, e0, hf, hclean, hc, hret, heof, hcont⟩
  · constructor
    · constructor
      · rintro ⟨d, e, h⟩
        have := hret _ h
        simp at this
      · rintro ⟨c, hc, hne⟩
        exact absurd (hok c hc) hne
    · intro d e h
      have := hret _ h
      simp at this
  · constructor
    · constructor
      · intro _
        exact ⟨c, by rw [hf]; simp, by rw [hc]; simp⟩
      · intro _
        exact ⟨differInNone, e0.Trace, hret⟩
    · intro d e h
      rw [hret] at h
      have he : e0.Trace = e := by
        have h2 := Option.some.inj h
        exact Option.some.inj (congrArg Ret.err h2)
      subst he
      exact ⟨heof, c, e0, by rw [hf]; simp, hc, rfl, rfl, hcont⟩

/-- Scenario 5, second call: with `a.txt` matched and the error record next in
the stream, the query `z.txt` returns the fetch error and `reachedEOF` stays false. -/
theorem errors_exactly_fetch_errors_witness :
    classify concatJoin (objectDifferenceFactory [recA, recErr])
        ⟨"", "a.txt", regularMode, 10, T0⟩ = (some ⟨differInNone, none⟩, afterA) ∧
    (classify concatJoin afterA queryZ).1 = some ⟨differInNone, some listErr.Trace⟩ ∧
    (classify concatJoin afterA queryZ).2.reachedEOF = false ∧
    ∃ c e0, (fetched afterA (classify concatJoin afterA queryZ).2).getLast? = some c ∧
      c.Err = some e0 ∧ listErr.Trace = e0.Trace ∧ listErr.Trace.Cause = e0.Cause ∧
      (classify concatJoin afterA queryZ).2.content = some { c with Err := some listErr.Trace } :=
  have h : (classify concatJoin afterA queryZ).1 = some ⟨differInNone, some listErr.Trace⟩ := by
    rw [classify_afterA_queryZ]
  ⟨by
    simp [classify, objectDifference, objectDifferenceFactory, objectDifferenceLoop, concatJoin,
      afterA, recA, recErr]
    decide,
   h, (errors_exactly_fetch_errors concatJoin afterA queryZ).2 differInNone listErr.Trace h⟩

/-- C10, as stated, fails: on the state reached after `a.txt` in scenario 5 the
call for `z.txt` returns the fetch error on its first receive; just before that
receive `content` held the record of `a.txt`, after the call it holds the
error-carrying record. -/
theorem error_replaces_content :
    (classify concatJoin afterA queryZ).1 = some ⟨differInNone, some listErr.Trace⟩ ∧
    fetched afterA (classify concatJoin afterA queryZ).2 = [recErr] ∧
    afterA.content = some recA ∧
    (classify concatJoin afterA queryZ).2.content
      = some { recErr with Err := some listErr.Trace } ∧
    (classify concatJoin afterA queryZ).2.content ≠ afterA.content := by
  rw [classify_afterA_queryZ]
  refine ⟨rfl, by simp [fetched, afterA], rfl, rfl, ?_⟩
  simp [afterA, recA, recErr]

/-- C10, amended: when a call returns a fetch error, `reachedEOF` is false before
and after the call, the error-carrying record has been taken from the stream
together with the error-free records before it, and `content` holds that
record, its error being the returned one. -/
theorem error_keeps_latch_stores_failed_record (urlJoinPath : String → String → String)
    (s : Session) (q : Query) (d : differType) (e : ProbeError)
    (h : (classify urlJoinPath s q).1 = some ⟨d, some e⟩) :
    s.reachedEOF = false ∧ (classify urlJoinPath s q).2.reachedEOF = s.reachedEOF ∧
    ∃ init c e0, s.ch = init ++ c :: (classify urlJoinPath s q).2.ch ∧
      (∀ p ∈ init, p.Err = none) ∧ c.Err = some e0 ∧ e = e0.Trace ∧
      (classify urlJoinPath s q).2.content = some { c with Err := some e } := by
  have hs : s.reachedEOF = false := by
    cases hEOF : s.reachedEOF with
    | false => rfl
    | true =>
      have := (exhausted_latch_answer urlJoinPath s q hEOF)
      rw [this] at h
      simp at h
  obtain ⟨hch, hcases⟩ := classify_fetch_cases urlJoinPath s q
  rcases hcases with ⟨_, hret⟩ | ⟨init, c, e0, hf, hclean, hc, hret, heof, hcont⟩
  · have := hret _ h
    simp at this
  · rw [hret] at h
    have he : e0.Trace = e := by
      have h2 := Option.some.inj h
      exact Option.some.inj (congrArg Ret.err h2)
    subst he
    refine ⟨hs, by rw [heof, hs], init, c, e0, ?_, hclean, hc, rfl, hcont⟩
    conv_lhs => rw [hch, hf]
    simp

/-- The failing receive of scenario 5: the latch stays false and `content` is
the error record. -/
theorem error_keeps_latch_stores_failed_record_witness :
    afterA.reachedEOF = false ∧
    (classify concatJoin afterA queryZ).2.reachedEOF = afterA.reachedEOF ∧
    ∃ init c e0, afterA.ch = init ++ c :: (classify concatJoin afterA queryZ).2.ch ∧
      (∀ p ∈ init, p.Err = none) ∧ c.Err = some e0 ∧ listErr.Trace = e0.Trace ∧
      (classify concatJoin afterA queryZ).2.content = some { c with Err := some listErr.Trace } :=
  error_keeps_latch_stores_failed_record concatJoin afterA queryZ differInNone listErr.Trace
    (by rw [classify_afterA_queryZ])

/-! ## The latch `reachedEOF` -/

theorem runCalls_of_exhausted (urlJoinPath : String → String → String) (s : Session)
    (qs : List Query) (h : s.reachedEOF = true) :
    (runCalls urlJoinPath s qs).2 = s := by
  induction qs with
  | nil => rfl
  | cons q qs ih =>
    unfold runCalls
    rw [exhausted_latch_answer urlJoinPath s q h]
    exact ih

/-- The first call of scenario 3, evaluated: `b.txt` on the stream
`[("a.txt", regular, 10, T0)]` receives the record and then the close. -/
theorem classify_recA_b_txt :
    classify concatJoin (objectDifferenceFactory [recA]) ⟨"", "b.txt", regularMode, 10, T0⟩
      = (some ⟨differInFirst, none⟩, ⟨true, false, none, []⟩) := by
  have hb : "" < "b.txt" := by rw [String.lt_iff_toList_lt]; decide
  have hab : "a.txt" < "b.txt" := by rw [String.lt_iff_toList_lt]; decide
  unfold classify objectDifference
  rw [if_neg (by decide)]
  show objectDifferenceLoop "b.txt" _ _ _ "" none false [recA] = _
  rw [loop_cons_ok_of_gt _ _ _ _ _ _ _ _ hb rfl]
  exact loop_nil_of_gt _ _ _ _ _ _ hab

/-- C11: in every sequence of calls on a session, with any queries and any
stream contents, once `reachedEOF` is true after some call it is true after
every later call. -/
theorem exhausted_latch_monotonic (urlJoinPath : String → String → String) (s : Session)
    (qs1 qs2 : List Query) (h : (runCalls urlJoinPath s qs1).2.reachedEOF = true) :
    (runCalls urlJoinPath s (qs1 ++ qs2)).2.reachedEOF = true := by
  induction qs1 generalizing s with
  | nil =>
    have hs : s.reachedEOF = true := h
    rw [List.nil_append, runCalls_of_exhausted urlJoinPath s qs2 hs]
    exact hs
  | cons q qs ih =>
    rw [List.cons_append]
    unfold runCalls at h ⊢
    cases hc : classify urlJoinPath s q with
    | mk r s1 =>
      rw [hc] at h
      cases r with
      | none => exact h
      | some r => exact ih s1 h

/-- Scenario 3 as a run: the latch set by `b.txt` is still set after `c.txt`. -/
theorem exhausted_latch_monotonic_witness :
    (runCalls concatJoin (objectDifferenceFactory [recA])
        [⟨"", "b.txt", regularMode, 10, T0⟩]).2.reachedEOF = true ∧
    (runCalls concatJoin (objectDifferenceFactory [recA])
        ([⟨"", "b.txt", regularMode, 10, T0⟩] ++ [⟨"", "c.txt", regularMode, 10, T0⟩])).2.reachedEOF
      = true :=
  have h : (runCalls concatJoin (objectDifferenceFactory [recA])
      [⟨"", "b.txt", regularMode, 10, T0⟩]).2.reachedEOF = true := by
    simp [runCalls, classify_recA_b_txt]
  ⟨h, exhausted_latch_monotonic concatJoin (objectDifferenceFactory [recA])
    [⟨"", "b.txt", regularMode, 10, T0⟩] [⟨"", "c.txt", regularMode, 10, T0⟩] h⟩

theorem loop_all_below (expected : String) (srcType : FileMode) (srcSize : Int)
    (srcTime : Time) (current : String) (content : Option clientContent) (ok : Bool)
    (ch : List clientContent) (h : current < expected)
    (hch : ∀ c ∈ ch, c.Err = none ∧ c.URL < expected) :
    objectDifferenceLoop expected srcType srcSize srcTime current content ok ch
      = (some ⟨differInFirst, none⟩, ⟨true, false, none, []⟩) := by
  induction ch generalizing current content ok with
  | nil => exact loop_nil_of_gt _ _ _ _ _ _ h
  | cons next rest ih =>
    have hn := hch next (List.mem_cons_self next rest)
    rw [loop_cons_ok_of_gt _ _ _ _ _ _ _ _ h hn.1]
    exact ih next.URL (some next) true hn.2 (fun c hc => hch c (List.mem_cons_of_mem next hc))

theorem loop_latch_only_at_close (expected : String) (srcType : FileMode) (srcSize : Int)
    (srcTime : Time) (current : String) (content : Option clientContent) (ok : Bool)
    (ch : List clientContent)
    (h : (objectDifferenceLoop expected srcType srcSize srcTime current content ok ch).2.reachedEOF
      = true) :
    current < expected ∧ ∀ c ∈ ch, c.Err = none ∧ c.URL < expected := by
  induction ch generalizing current content ok with
  | nil =>
    rcases lt_trichotomy expected current with hlt | heq | hgt
    · rw [loop_of_lt _ _ _ _ _ _ _ hlt] at h
      simp at h
    · cases content with
      | none =>
        rw [loop_of_eq_none _ _ _ _ _ _ heq] at h
        simp at h
      | some c =>
        rw [loop_of_eq_some _ _ _ _ _ _ _ heq] at h
        simp at h
    · exact ⟨hgt, by simp⟩
  | cons next rest ih =>
    rcases lt_trichotomy expected current with hlt | heq | hgt
    · rw [loop_of_lt _ _ _ _ _ _ _ hlt] at h
      simp at h
    · cases content with
      | none =>
        rw [loop_of_eq_none _ _ _ _ _ _ heq] at h
        simp at h
      | some c =>
        rw [loop_of_eq_some _ _ _ _ _ _ _ heq] at h
        simp at h
    · refine ⟨hgt, ?_⟩
      cases hE : next.Err with
      | some e =>
        rw [loop_cons_err_of_gt _ _ _ _ _ _ _ _ e hgt hE] at h
        simp at h
      | none =>
        rw [loop_cons_ok_of_gt _ _ _ _ _ _ _ _ hgt hE] at h
        obtain ⟨hnext, hrest⟩ := ih next.URL (some next) true h
        intro c hc
        rcases List.mem_cons.mp hc with rfl | hc
        · exact ⟨hE, hnext⟩
        · exact hrest c hc

/-- C12: on a session that is not exhausted, a call whose receive finds the
stream closed (it asks for a key behind the root key and every remaining record
is free of error with a key smaller than the expected key) returns
`differInFirst` with no error and leaves `reachedEOF` true; conversely
`reachedEOF` becomes true in a call only in that case, every remaining record
having been received. -/
theorem end_of_stream_sets_latch (urlJoinPath : String → String → String) (s : Session)
    (q : Query) (hEOF : s.reachedEOF = false) :
    ((q.targetURL < q.expected urlJoinPath ∧
        ∀ c ∈ s.ch, c.Err = none ∧ c.URL < q.expected urlJoinPath) →
      classify urlJoinPath s q = (some ⟨differInFirst, none⟩, ⟨true, false, none, []⟩)) ∧
    ((classify urlJoinPath s q).2.reachedEOF = true →
      q.targetURL < q.expected urlJoinPath ∧
      (∀ c ∈ s.ch, c.Err = none ∧ c.URL < q.expected urlJoinPath) ∧
      fetched s (classify urlJoinPath s q).2 = s.ch ∧
      (classify urlJoinPath s q).1 = some ⟨differInFirst, none⟩) := by
  have hunf : classify urlJoinPath s q
      = objectDifferenceLoop (q.expected urlJoinPath) q.srcType q.srcSize q.srcTime
          q.targetURL s.content s.ok s.ch := by
    simp [classify, objectDifference, hEOF, Query.expected]
  have hfwd : (q.targetURL < q.expected urlJoinPath ∧
        ∀ c ∈ s.ch, c.Err = none ∧ c.URL < q.expected urlJoinPath) →
      classify urlJoinPath s q = (some ⟨differInFirst, none⟩, ⟨true, false, none, []⟩) := by
    rintro ⟨hroot, hch⟩
    rw [hunf]
    exact loop_all_below _ _ _ _ _ _ _ _ hroot hch
  refine ⟨hfwd, ?_⟩
  intro h
  rw [hunf] at h
  have hb := loop_latch_only_at_close _ _ _ _ _ _ _ _ h
  have hc := hfwd hb
  refine ⟨hb.1, hb.2, ?_, ?_⟩
  · rw [hc]
    simp [fetched]
  · rw [hc]

/-- Scenario 3, first query: `b.txt` on the stream `[("a.txt", regular, 10, T0)]`. -/
theorem end_of_stream_sets_latch_witness :
    classify concatJoin (objectDifferenceFactory [recA]) ⟨"", "b.txt", regularMode, 10, T0⟩
      = (some ⟨differInFirst, none⟩, ⟨true, false, none, []⟩) :=
  (end_of_stream_sets_latch concatJoin (objectDifferenceFactory [recA])
      ⟨"", "b.txt", regularMode, 10, T0⟩ rfl).1
    ⟨by
      show "" < "b.txt"
      rw [String.lt_iff_toList_lt]; decide,
     by
      intro c hc
      rw [show (objectDifferenceFactory [recA]).ch = [recA] from rfl, List.mem_singleton] at hc
      subst hc
      refine ⟨rfl, ?_⟩
      show "a.txt" < "b.txt"
      rw [String.lt_iff_toList_lt]; decide⟩

/-! ## The held record is not reused -/

/-- The call for `b` on the stream `[t/a, t/c, t/d]`, evaluated: it receives
`t/a` and `t/c` and stops there. -/
theorem classify_b_before_c_and_d :
    classify concatJoin (objectDifferenceFactory [fileAt "t/a", fileAt "t/c", fileAt "t/d"])
        (queryAt "b")
      = (some ⟨differInFirst, none⟩, ⟨false, true, some (fileAt "t/c"), [fileAt "t/d"]⟩) := by
  have hab : "t/a" < "t/b" := by rw [String.lt_iff_toList_lt]; decide
  have hbc : "t/b" < "t/c" := by rw [String.lt_iff_toList_lt]; decide
  have hrb : "t/" < "t/b" := by rw [String.lt_iff_toList_lt]; decide
  unfold classify objectDifference
  rw [if_neg (by decide)]
  show objectDifferenceLoop "t/b" _ _ _ "t/" none false
    [fileAt "t/a", fileAt "t/c", fileAt "t/d"] = _
  rw [loop_cons_ok_of_gt _ _ _ _ _ _ _ _ hrb rfl]
  show objectDifferenceLoop "t/b" _ _ _ "t/a" _ true [fileAt "t/c", fileAt "t/d"] = _
  rw [loop_cons_ok_of_gt _ _ _ _ _ _ _ _ hab rfl]
  exact loop_of_lt _ _ _ _ _ _ _ hbc


/-- C13 fails on the stream `[t/a, t/c, t/d]`: the call for `b` ends holding the
record `t/c`, with `t/d` still to come. The next call asks for `c`, the key of
the held record, for which the held record gives `differInNone`; the call starts
again from the root key instead, receives `t/d` and answers `differInFirst`. -/
theorem held_record_not_reused :
    classify concatJoin (objectDifferenceFactory [fileAt "t/a", fileAt "t/c", fileAt "t/d"])
        (queryAt "b")
      = (some ⟨differInFirst, none⟩, ⟨false, true, some (fileAt "t/c"), [fileAt "t/d"]⟩) ∧
    (queryAt "c").expected concatJoin = (fileAt "t/c").URL ∧
    compareContent (queryAt "c").srcType (queryAt "c").srcSize (queryAt "c").srcTime
        (fileAt "t/c") = differInNone ∧
    classify concatJoin ⟨false, true, some (fileAt "t/c"), [fileAt "t/d"]⟩ (queryAt "c")
      = (some ⟨differInFirst, none⟩, ⟨false, true, some (fileAt "t/d"), []⟩) ∧
    fetched ⟨false, true, some (fileAt "t/c"), [fileAt "t/d"]⟩
        (classify concatJoin ⟨false, true, some (fileAt "t/c"), [fileAt "t/d"]⟩ (queryAt "c")).2
      = [fileAt "t/d"] := by
  have hcd : "t/c" < "t/d" := by rw [String.lt_iff_toList_lt]; decide
  have hrc : "t/" < "t/c" := by rw [String.lt_iff_toList_lt]; decide
  have h2 : classify concatJoin ⟨false, true, some (fileAt "t/c"), [fileAt "t/d"]⟩ (queryAt "c")
      = (some ⟨differInFirst, none⟩, ⟨false, true, some (fileAt "t/d"), []⟩) := by
    unfold classify objectDifference
    rw [if_neg (by decide)]
    show objectDifferenceLoop "t/c" _ _ _ "t/" _ true [fileAt "t/d"] = _
    rw [loop_cons_ok_of_gt _ _ _ _ _ _ _ _ hrc rfl]
    exact loop_of_lt _ _ _ _ _ _ _ hcd
  refine ⟨classify_b_before_c_and_d, rfl, ?_, h2, ?_⟩
  · rw [compareContent_regular (queryAt "c").srcType _ _ (fileAt "t/c") regularMode_isRegular
      regularMode_isRegular]
    rfl
  · rw [h2]
    simp [fetched]

/-! ## Classification against `content` at the root key -/

/-- C14 fails for the root key: on a fresh closure the query with the empty
suffix reaches the classification step with `content` nil, and the call stops on
the read of `content.Type`; after `a` has been matched, the same query with
size 99 is classified as `differInSize` against the held record `t/a`, whose key
is not the expected key `t/`. -/
theorem classification_reads_unset_or_foreign_content :
    classify concatJoin (objectDifferenceFactory [fileAt "t/a"]) (queryAt "")
      = (none, objectDifferenceFactory [fileAt "t/a"]) ∧
    (fileAt "t/a").URL ≠ Query.expected concatJoin ⟨"t/", "", regularMode, 99, T0⟩ ∧
    classify concatJoin ⟨false, true, some (fileAt "t/a"), []⟩ ⟨"t/", "", regularMode, 99, T0⟩
      = (some ⟨differInSize, none⟩, ⟨false, true, some (fileAt "t/a"), []⟩) := by
  refine ⟨?_, by decide, ?_⟩
  · unfold classify objectDifference
    rw [if_neg (by decide)]
    exact loop_of_eq_none _ _ _ _ _ _ rfl
  · unfold classify objectDifference
    rw [if_neg (by decide)]
    show objectDifferenceLoop "t/" _ _ _ "t/" _ true [] = _
    rw [loop_of_eq_some _ _ _ _ _ _ _ rfl,
      compareContent_regular regularMode _ _ (fileAt "t/a") regularMode_isRegular
        regularMode_isRegular]
    rfl

/-! ## The record held in `content` -/

theorem fetched_of_append (s t : Session) (pre : List clientContent)
    (h : s.ch = pre ++ t.ch) : fetched s t = pre := by
  unfold fetched
  rw [h]
  simp

/-- What a run of the loop leaves in `content`, against the records it receives:
the latch is set, or nothing was received and `content` is untouched, or
`content` holds the last record received. -/
theorem loop_content_cases (expected : String) (srcType : FileMode) (srcSize : Int)
    (srcTime : Time) (current : String) (content : Option clientContent) (ok : Bool)
    (ch : List clientContent) :
    ∃ pre, ch = pre ++ (objectDifferenceLoop expected srcType srcSize srcTime current content ok ch).2.ch ∧
      ((objectDifferenceLoop expected srcType srcSize srcTime current content ok ch).2.reachedEOF
          = true ∨
        (pre = [] ∧
          (objectDifferenceLoop expected srcType srcSize srcTime current content ok ch).2.content
            = content) ∨
        ∃ init r, pre = init ++ [r] ∧
          holdsRecord
            (objectDifferenceLoop expected srcType srcSize srcTime current content ok ch).2.content
            r) := by
  induction ch generalizing current content ok with
  | nil =>
    rcases lt_trichotomy expected current with h | h | h
    · rw [loop_of_lt _ _ _ _ content ok [] h]
      exact ⟨[], by simp, Or.inr (Or.inl ⟨rfl, rfl⟩)⟩
    · cases content with
      | none =>
        rw [loop_of_eq_none _ _ _ _ ok [] h]
        exact ⟨[], by simp, Or.inr (Or.inl ⟨rfl, rfl⟩)⟩
      | some c =>
        rw [loop_of_eq_some _ _ _ _ c ok [] h]
        exact ⟨[], by simp, Or.inr (Or.inl ⟨rfl, rfl⟩)⟩
    · rw [loop_nil_of_gt _ _ _ _ content ok h]
      exact ⟨[], by simp, Or.inl rfl⟩
  | cons next rest ih =>
    rcases lt_trichotomy expected current with h | h | h
    · rw [loop_of_lt _ _ _ _ content ok (next :: rest) h]
      exact ⟨[], by simp, Or.inr (Or.inl ⟨rfl, rfl⟩)⟩
    · cases content with
      | none =>
        rw [loop_of_eq_none _ _ _ _ ok (next :: rest) h]
        exact ⟨[], by simp, Or.inr (Or.inl ⟨rfl, rfl⟩)⟩
      | some c =>
        rw [loop_of_eq_some _ _ _ _ c ok (next :: rest) h]
        exact ⟨[], by simp, Or.inr (Or.inl ⟨rfl, rfl⟩)⟩
    · cases hE : next.Err with
      | some e =>
        rw [loop_cons_err_of_gt _ _ _ _ content ok next rest e h hE]
        refine ⟨[next], by simp, Or.inr (Or.inr ⟨[], next, by simp, Or.inr ?_⟩)⟩
        simp [hE]
      | none =>
        rw [loop_cons_ok_of_gt _ _ _ _ content ok next rest h hE]
        obtain ⟨pre, hpre, hcases⟩ := ih next.URL (some next) true
        refine ⟨next :: pre, by rw [List.cons_append, ← hpre], ?_⟩
        rcases hcases with hlatch | ⟨hnil, hcont⟩ | ⟨init, r, hinit, hheld⟩
        · exact Or.inl hlatch
        · exact Or.inr (Or.inr ⟨[], next, by rw [hnil]; rfl, Or.inl hcont⟩)
        · exact Or.inr (Or.inr ⟨next :: init, r, by rw [hinit, List.cons_append], hheld⟩)

theorem classify_preserves_currentInv (urlJoinPath : String → String → String)
    (L : List clientContent) (s : Session) (q : Query) (hinv : currentInv L s) :
    currentInv L (classify urlJoinPath s q).2 := by
  cases hEOF : s.reachedEOF with
  | true =>
    rw [exhausted_latch_answer urlJoinPath s q hEOF]
    exact hinv
  | false =>
    have hunf : classify urlJoinPath s q
        = objectDifferenceLoop (q.expected urlJoinPath) q.srcType q.srcSize q.srcTime
            q.targetURL s.content s.ok s.ch := by
      simp [classify, objectDifference, hEOF, Query.expected]
    obtain ⟨pre, hL, hs⟩ := hinv
    obtain ⟨pre2, hch, hcases⟩ := loop_content_cases (q.expected urlJoinPath) q.srcType
      q.srcSize q.srcTime q.targetURL s.content s.ok s.ch
    rw [← hunf] at hch hcases
    refine ⟨pre ++ pre2, by rw [List.append_assoc, ← hch]; exact hL, ?_⟩
    intro hlatch
    rcases hcases with h | ⟨hnil, hcont⟩ | ⟨init, r, hinit, hheld⟩
    · rw [hlatch] at h
      cases h
    · rw [hnil, List.append_nil, hcont]
      exact hs hEOF
    · exact Or.inr ⟨pre ++ init, r, by rw [hinit, List.append_assoc], hheld⟩

theorem runCalls_preserves_currentInv (urlJoinPath : String → String → String)
    (L : List clientContent) (s : Session) (qs : List Query) (hinv : currentInv L s) :
    currentInv L (runCalls urlJoinPath s qs).2 := by
  induction qs generalizing s with
  | nil => exact hinv
  | cons q qs ih =>
    have hstep := classify_preserves_currentInv urlJoinPath L s q hinv
    unfold runCalls
    cases hc : classify urlJoinPath s q with
    | mk r s1 =>
      rw [hc] at hstep
      cases r with
      | none => exact hstep
      | some r => exact ih s1 hstep

/-- C15: in every state reached from a fresh closure by a sequence of calls, if
at least one record has been received from the target stream and `reachedEOF`
is false, then `content` is set and holds the record received last; `content`
is nil only if no record has been received yet or `reachedEOF` is true. -/
theorem current_record_invariant (urlJoinPath : String → String → String)
    (L : List clientContent) (qs : List Query) :
    L = fetched (objectDifferenceFactory L) (runCalls urlJoinPath (objectDifferenceFactory L) qs).2
          ++ (runCalls urlJoinPath (objectDifferenceFactory L) qs).2.ch ∧
    ((runCalls urlJoinPath (objectDifferenceFactory L) qs).2.reachedEOF = false →
      fetched (objectDifferenceFactory L) (runCalls urlJoinPath (objectDifferenceFactory L) qs).2
        ≠ [] →
      ∃ r, (fetched (objectDifferenceFactory L)
              (runCalls urlJoinPath (objectDifferenceFactory L) qs).2).getLast? = some r ∧
        (runCalls urlJoinPath (objectDifferenceFactory L) qs).2.content ≠ none ∧
        holdsRecord (runCalls urlJoinPath (objectDifferenceFactory L) qs).2.content r) ∧
    ((runCalls urlJoinPath (objectDifferenceFactory L) qs).2.content = none →
      fetched (objectDifferenceFactory L) (runCalls urlJoinPath (objectDifferenceFactory L) qs).2
        = [] ∨
      (runCalls urlJoinPath (objectDifferenceFactory L) qs).2.reachedEOF = true) := by
  have hfresh : currentInv L (objectDifferenceFactory L) :=
    ⟨[], rfl, fun _ => Or.inl ⟨rfl, rfl⟩⟩
  obtain ⟨pre, hL, hs⟩ := runCalls_preserves_currentInv urlJoinPath L _ qs hfresh
  have hf : fetched (objectDifferenceFactory L)
      (runCalls urlJoinPath (objectDifferenceFactory L) qs).2 = pre :=
    fetched_of_append _ _ pre hL
  rw [hf]
  have hset : ∀ (c : Option clientContent) (r : clientContent), holdsRecord c r → c ≠ none := by
    intro c r hr hnone
    rcases hr with h | h <;> rw [hnone] at h <;> cases h
  refine ⟨hL, ?_, ?_⟩
  · intro hlatch hne
    rcases hs hlatch with ⟨hnil, _⟩ | ⟨init, r, hinit, hheld⟩
    · exact absurd hnil hne
    · exact ⟨r, by rw [hinit]; simp, hset _ _ hheld, hheld⟩
  · intro hnone
    cases hlatch : (runCalls urlJoinPath (objectDifferenceFactory L) qs).2.reachedEOF with
    | true => exact Or.inr rfl
    | false =>
      rcases hs hlatch with ⟨hnil, _⟩ | ⟨init, r, hinit, hheld⟩
      · exact Or.inl hnil
      · exact absurd hnone (hset _ _ hheld)

/-- Scenario 5 as a run: after `a.txt` and `z.txt` on the stream
`[recA, recErr]` the latch is false and `content` holds the error record, the
last one received. -/
theorem current_record_invariant_witness :
    (runCalls concatJoin (objectDifferenceFactory [recA, recErr])
        [⟨"", "a.txt", regularMode, 10, T0⟩, queryZ]).2.reachedEOF = false →
      fetched (objectDifferenceFactory [recA, recErr])
        (runCalls concatJoin (objectDifferenceFactory [recA, recErr])
          [⟨"", "a.txt", regularMode, 10, T0⟩, queryZ]).2 ≠ [] →
      ∃ r, (fetched (objectDifferenceFactory [recA, recErr])
              (runCalls concatJoin (objectDifferenceFactory [recA, recErr])
                [⟨"", "a.txt", regularMode, 10, T0⟩, queryZ]).2).getLast? = some r ∧
        (runCalls concatJoin (objectDifferenceFactory [recA, recErr])
          [⟨"", "a.txt", regularMode, 10, T0⟩, queryZ]).2.content ≠ none ∧
        holdsRecord (runCalls concatJoin (objectDifferenceFactory [recA, recErr])
          [⟨"", "a.txt", regularMode, 10, T0⟩, queryZ]).2.content r :=
  (current_record_invariant concatJoin [recA, recErr]
    [⟨"", "a.txt", regularMode, 10, T0⟩, queryZ]).2.1

/-! ## How much of the stream a call consumes -/

/-- A run of the loop that starts below the expected key stops on the first
record that carries an error or whose key is not below the expected key, having
received it and the records before it; without such a record it receives
everything and sets the latch. -/
theorem loop_consumes (expected : String) (srcType : FileMode) (srcSize : Int)
    (srcTime : Time) (current : String) (content : Option clientContent) (ok : Bool)
    (ch : List clientContent) (h : current < expected) :
    (∃ init c,
        ch = init ++ c ::
          (objectDifferenceLoop expected srcType srcSize srcTime current content ok ch).2.ch ∧
        (∀ p ∈ init, p.Err = none ∧ p.URL < expected) ∧
        (c.Err ≠ none ∨ expected ≤ c.URL) ∧
        (objectDifferenceLoop expected srcType srcSize srcTime current content ok ch).2.reachedEOF
          = false) ∨
    ((∀ p ∈ ch, p.Err = none ∧ p.URL < expected) ∧
      (objectDifferenceLoop expected srcType srcSize srcTime current content ok ch).2.ch = [] ∧
      (objectDifferenceLoop expected srcType srcSize srcTime current content ok ch).2.reachedEOF
        = true) := by
  induction ch generalizing current content ok with
  | nil =>
    rw [loop_nil_of_gt _ _ _ _ content ok h]
    exact Or.inr ⟨by simp, rfl, rfl⟩
  | cons next rest ih =>
    cases hE : next.Err with
    | some e =>
      rw [loop_cons_err_of_gt _ _ _ _ content ok next rest e h hE]
      exact Or.inl ⟨[], next, rfl, by simp, Or.inl (by rw [hE]; simp), rfl⟩
    | none =>
      rw [loop_cons_ok_of_gt _ _ _ _ content ok next rest h hE]
      rcases lt_trichotomy expected next.URL with hlt | heq | hgt
      · rw [loop_of_lt _ _ _ _ (some next) true rest hlt]
        exact Or.inl ⟨[], next, rfl, by simp, Or.inr (le_of_lt hlt), rfl⟩
      · rw [loop_of_eq_some _ _ _ _ next true rest heq]
        exact Or.inl ⟨[], next, rfl, by simp, Or.inr (le_of_eq heq), rfl⟩
      · rcases ih next.URL (some next) true hgt with
          ⟨init, c, hch, hinit, hstop, hlatch⟩ | ⟨hall, hnil, hlatch⟩
        · refine Or.inl ⟨next :: init, c, by rw [List.cons_append, ← hch], ?_, hstop, hlatch⟩
          intro p hp
          rcases List.mem_cons.mp hp with rfl | hp
          · exact ⟨hE, hgt⟩
          · exact hinit p hp
        · refine Or.inr ⟨?_, hnil, hlatch⟩
          intro p hp
          rcases List.mem_cons.mp hp with rfl | hp
          · exact ⟨hE, hgt⟩
          · exact hall p hp

/-- C16: a call on a session that is not exhausted, over a finite remaining
stream, returns a state whose stream is a suffix of the one before. If the
expected key is at most the root key it receives no record; otherwise it
receives exactly the records up to and including the first one that carries an
error or whose key is at least the expected key, and if there is no such record
it receives the whole remaining stream and sets `reachedEOF`. -/
theorem exact_consumption (urlJoinPath : String → String → String) (s : Session) (q : Query)
    (hEOF : s.reachedEOF = false) :
    s.ch = fetched s (classify urlJoinPath s q).2 ++ (classify urlJoinPath s q).2.ch ∧
    (q.expected urlJoinPath ≤ q.targetURL →
      fetched s (classify urlJoinPath s q).2 = [] ∧ (classify urlJoinPath s q).2.ch = s.ch ∧
      (classify urlJoinPath s q).2.reachedEOF = false) ∧
    (q.targetURL < q.expected urlJoinPath →
      (∃ init c, fetched s (classify urlJoinPath s q).2 = init ++ [c] ∧
          (∀ p ∈ init, p.Err = none ∧ p.URL < q.expected urlJoinPath) ∧
          (c.Err ≠ none ∨ q.expected urlJoinPath ≤ c.URL) ∧
          (classify urlJoinPath s q).2.reachedEOF = false) ∨
      ((∀ p ∈ s.ch, p.Err = none ∧ p.URL < q.expected urlJoinPath) ∧
        fetched s (classify urlJoinPath s q).2 = s.ch ∧
        (classify urlJoinPath s q).2.ch = [] ∧
        (classify urlJoinPath s q).2.reachedEOF = true)) := by
  have hunf : classify urlJoinPath s q
      = objectDifferenceLoop (q.expected urlJoinPath) q.srcType q.srcSize q.srcTime
          q.targetURL s.content s.ok s.ch := by
    simp [classify, objectDifference, hEOF, Query.expected]
  refine ⟨(classify_fetch_cases urlJoinPath s q).1, ?_, ?_⟩
  · intro hle
    have hstate : (classify urlJoinPath s q).2 = ⟨false, s.ok, s.content, s.ch⟩ := by
      rw [hunf]
      rcases lt_or_eq_of_le hle with hlt | heq
      · rw [loop_of_lt _ _ _ _ _ _ _ hlt]
      · cases hc : s.content with
        | none => rw [loop_of_eq_none _ _ _ _ _ _ heq]
        | some c => rw [loop_of_eq_some _ _ _ _ _ _ _ heq]
    rw [hstate]
    simp [fetched]
  · intro hlt
    rcases loop_consumes (q.expected urlJoinPath) q.srcType q.srcSize q.srcTime q.targetURL
        s.content s.ok s.ch hlt with ⟨init, c, hch, hinit, hstop, hlatch⟩ | ⟨hall, hnil, hlatch⟩
    · rw [← hunf] at hch hlatch
      refine Or.inl ⟨init, c, ?_, hinit, hstop, hlatch⟩
      apply fetched_of_append
      rw [List.append_assoc]
      exact hch
    · rw [← hunf] at hnil hlatch
      refine Or.inr ⟨hall, ?_, hnil, hlatch⟩
      apply fetched_of_append
      rw [hnil, List.append_nil]

/-- The call for `b` on the stream `[t/a, t/c, t/d]` under the root `t/`: the
closure is fresh, so the latch is false, and the statement of C16 applies. -/
theorem exact_consumption_witness :
    fetched (objectDifferenceFactory [fileAt "t/a", fileAt "t/c", fileAt "t/d"])
        (classify concatJoin (objectDifferenceFactory [fileAt "t/a", fileAt "t/c", fileAt "t/d"])
          (queryAt "b")).2
      = [fileAt "t/a", fileAt "t/c"] ∧
    ([fileAt "t/a", fileAt "t/c", fileAt "t/d"]
      = fetched (objectDifferenceFactory [fileAt "t/a", fileAt "t/c", fileAt "t/d"])
          (classify concatJoin
            (objectDifferenceFactory [fileAt "t/a", fileAt "t/c", fileAt "t/d"])
            (queryAt "b")).2
        ++ (classify concatJoin
            (objectDifferenceFactory [fileAt "t/a", fileAt "t/c", fileAt "t/d"])
            (queryAt "b")).2.ch) :=
  ⟨by
    rw [classify_b_before_c_and_d]
    simp [fetched, objectDifferenceFactory],
   (exact_consumption concatJoin
      (objectDifferenceFactory [fileAt "t/a", fileAt "t/c", fileAt "t/d"]) (queryAt "b") rfl).1⟩

/-! ## The result value that comes with an error -/

/-- C17: whenever a call returns an error, the `differType` returned with it is
`differInNone`, the zero value of the type. -/
theorem error_result_is_zero_value (urlJoinPath : String → String → String) (s : Session)
    (q : Query) (d : differType) (e : ProbeError)
    (h : (classify urlJoinPath s q).1 = some ⟨d, some e⟩) :
    d = differInNone ∧ d.toInt16 = 0 := by
  have hd : d = differInNone := by
    rcases (classify_fetch_cases urlJoinPath s q).2 with
      ⟨_, hret⟩ | ⟨init, c, e0, _, _, _, hret, _, _⟩
    · have := hret _ h
      simp at this
    · rw [hret] at h
      exact (congrArg Ret.diff (Option.some.inj h)).symm
  subst hd
  exact ⟨rfl, rfl⟩

/-- Scenario 5 against scenario 1: the failed call for `z.txt` and the call for
an identical `a.txt` return the same `differType`, `differInNone`. -/
theorem error_result_is_zero_value_witness :
    (differInNone = differInNone ∧ differInNone.toInt16 = 0) ∧
    (classify concatJoin afterA queryZ).1 = some ⟨differInNone, some listErr.Trace⟩ ∧
    (classify concatJoin (objectDifferenceFactory [recA]) ⟨"", "a.txt", regularMode, 10, T0⟩).1
      = some ⟨differInNone, none⟩ :=
  have h : (classify concatJoin afterA queryZ).1 = some ⟨differInNone, some listErr.Trace⟩ := by
    rw [classify_afterA_queryZ]
  ⟨error_result_is_zero_value concatJoin afterA queryZ differInNone listErr.Trace h, h, by
    rw [classify_compares concatJoin (objectDifferenceFactory [recA])
      ⟨"", "a.txt", regularMode, 10, T0⟩ [] recA [] rfl empty_lt_a_txt rfl (by simp) rfl
      (by decide)]
    rw [compareContent_regular regularMode _ _ recA regularMode_isRegular regularMode_isRegular]
    rfl⟩

end Difference
